import Mathlib

/-!
Shallow embedding of the notebook
`official/projects/waste_identification_ml/llm_applications/Quality_Control_Geimini.ipynb`
and proofs about it.  Python machine-level details are modelled as follows:
CSV files appear after `csv.reader` as a list of rows (each row a list of
cell strings); the file system is a partial map from paths to contents;
`dict` subscripting that may raise `KeyError` is an `Option`-valued lookup;
numeric bbox entries are exact rationals.
-/

namespace QCG

/-- Embedding of the notebook's `read_csv` body: iterate over the rows
produced by `csv.reader`, keep the first cell of every non-empty row.
The source contains no header-skipping step. -/
def read_csv (rows : List (List String)) : List String :=
  rows.filterMap (fun row => row.head?)

/-- Embedding of `convert_bbox_coco_to_xyxy`: `x1 = bbox[0]`, `y1 = bbox[1]`,
`x2 = x1 + bbox[2]`, `y2 = y1 + bbox[3]`, returned as `[x1, y1, x2, y2]`.
Indexing a 4-element Python list is modelled by `getD` (the default is
never reached on 4-element inputs). -/
def convert_bbox_coco_to_xyxy (bbox : List ℚ) : List ℚ :=
  let x1 := bbox.getD 0 0
  let y1 := bbox.getD 1 0
  let x2 := x1 + bbox.getD 2 0
  let y2 := y1 + bbox.getD 3 0
  [x1, y1, x2, y2]

/-- Embedding of `labels_mapping = {i:j for i,j in enumerate(labels, start=1)}`:
an association list pairing 1-based indices with the labels. -/
def labels_mapping (labels : List String) : List (Nat × String) :=
  List.enumFrom 1 labels

/-- Embedding of Python `labels_mapping[category_id]`: a `KeyError` is the
`none` case. -/
def mappingLookup (labels : List String) (categoryId : Nat) : Option String :=
  List.lookup categoryId (labels_mapping labels)

/-- Normalisation of one slice bound, as in CPython `slice.indices` for
step 1 (also numpy basic slicing): negative indices count from the end,
then the bound is clamped into `[0, n]`. -/
def pySliceNorm (n : Nat) (i : Int) : Nat :=
  (max 0 (min (if i < 0 then i + n else i) n)).toNat

/-- Embedding of Python `l[a:b]` (step 1). -/
def pySlice (l : List α) (a b : Int) : List α :=
  (l.take (pySliceNorm l.length b)).drop (pySliceNorm l.length a)

/-- Embedding of the crop `image_rgb[y1:y2, x1:x2]` on a row-major image;
a pixel (with its channels) is the abstract element type. -/
def slice2d (img : List (List α)) (y1 y2 x1 x2 : Int) : List (List α) :=
  (pySlice img y1 y2).map (fun row => pySlice row x1 x2)

/-- Backtick character, written by code so that the fence patterns can be
spelled out as explicit character lists. -/
def btick : Char := '\x60'

/-- Characters of the first `re.sub` alternative, the literal pattern
three backticks, `json`, newline. -/
def fenceOpen : List Char := [btick, btick, btick, 'j', 's', 'o', 'n', '\n']

/-- Characters of the second `re.sub` alternative, the literal pattern
newline, three backticks. -/
def fenceClose : List Char := ['\n', btick, btick, btick]

/-- Fuel-indexed single left-to-right pass of
`re.sub(r"` three backticks `json\n|\n` three backticks `", "", text)`:
at each position the regex engine tries each alternative, consumes a match
and continues after it, otherwise emits the character and moves one ahead. -/
def substFenceAux : Nat → List Char → List Char
  | 0, _ => []
  | f + 1, cs =>
    if fenceOpen.isPrefixOf cs then substFenceAux f (cs.drop 8)
    else if fenceClose.isPrefixOf cs then substFenceAux f (cs.drop 4)
    else
      match cs with
      | [] => []
      | c :: rest => c :: substFenceAux f rest

/-- Embedding of the notebook's fence-stripping `re.sub` call.  Fuel equal
to the input length suffices because every step consumes at least one
character. -/
def substFence (cs : List Char) : List Char :=
  substFenceAux cs.length cs

/-- Whitespace characters stripped by Python `str.strip()` (ASCII part). -/
def pyWs (c : Char) : Bool :=
  c = ' ' || c = '\t' || c = '\n' || c = '\r' || c = '\x0b' || c = '\x0c'

/-- Embedding of Python `str.strip()`. -/
def pyStripL (cs : List Char) : List Char :=
  ((cs.dropWhile pyWs).reverse.dropWhile pyWs).reverse

/-- JSON documents as produced by Python `json.loads`; number lexemes are
kept verbatim, so no floating-point semantics is needed. -/
inductive JsonValue where
  | null : JsonValue
  | bool (b : Bool) : JsonValue
  | num (lexeme : String) : JsonValue
  | str (s : String) : JsonValue
  | arr (items : List JsonValue) : JsonValue
  | obj (members : List (String × JsonValue)) : JsonValue

/-- Insertion into the association list representing a Python `dict`:
a duplicate key overwrites in place (last value wins, first position kept),
matching `dict` assignment while building a JSON object. -/
def objInsert (kvs : List (String × JsonValue)) (k : String) (v : JsonValue) :
    List (String × JsonValue) :=
  if kvs.any (fun p => p.1 == k) then
    kvs.map (fun p => if p.1 == k then (k, v) else p)
  else kvs ++ [(k, v)]

/-- Embedding of Python `dict.get(key)`: `none` models the default `None`
returned for a missing key. -/
def dictGet (kvs : List (String × JsonValue)) (k : String) : Option JsonValue :=
  match kvs.find? (fun p => p.1 == k) with
  | some p => some p.2
  | none => none

/-- JSON insignificant whitespace. -/
def jsonWs (c : Char) : Bool :=
  c = ' ' || c = '\t' || c = '\n' || c = '\r'

/-- Skip JSON insignificant whitespace. -/
def skipWs (cs : List Char) : List Char :=
  cs.dropWhile jsonWs

/-- Value of one hexadecimal digit. -/
def hexVal (c : Char) : Option Nat :=
  if '0' ≤ c ∧ c ≤ '9' then some (c.toNat - '0'.toNat)
  else if 'a' ≤ c ∧ c ≤ 'f' then some (c.toNat - 'a'.toNat + 10)
  else if 'A' ≤ c ∧ c ≤ 'F' then some (c.toNat - 'A'.toNat + 10)
  else none

/-- Character produced for a `\uXXXX` code unit that is not part of a
surrogate pair; Python keeps a lone surrogate in the `str`, which `Char`
cannot represent, so the replacement character stands in for it (no theorem
evaluates such an input). -/
def charOfUnit (code : Nat) : Char :=
  if 0xD800 ≤ code ∧ code ≤ 0xDFFF then '\xFD' else Char.ofNat code

/-- Body of a JSON string after the opening quote, as in Python
`py_scanstring` with `strict=True`: raw control characters below `0x20`
are rejected, the eight short escapes and `\uXXXX` (with surrogate-pair
combination) are decoded. -/
def parseStringBody : Nat → List Char → Option (List Char × List Char)
  | 0, _ => none
  | f + 1, cs =>
    match cs with
    | [] => none
    | '\"' :: rest => some ([], rest)
    | '\\' :: esc =>
      match esc with
      | '\"' :: rest => (parseStringBody f rest).map (fun pr => ('\"' :: pr.1, pr.2))
      | '\\' :: rest => (parseStringBody f rest).map (fun pr => ('\\' :: pr.1, pr.2))
      | '/' :: rest => (parseStringBody f rest).map (fun pr => ('/' :: pr.1, pr.2))
      | 'b' :: rest => (parseStringBody f rest).map (fun pr => ('\x08' :: pr.1, pr.2))
      | 'f' :: rest => (parseStringBody f rest).map (fun pr => ('\x0c' :: pr.1, pr.2))
      | 'n' :: rest => (parseStringBody f rest).map (fun pr => ('\n' :: pr.1, pr.2))
      | 'r' :: rest => (parseStringBody f rest).map (fun pr => ('\r' :: pr.1, pr.2))
      | 't' :: rest => (parseStringBody f rest).map (fun pr => ('\t' :: pr.1, pr.2))
      | 'u' :: h1 :: h2 :: h3 :: h4 :: rest =>
        match hexVal h1, hexVal h2, hexVal h3, hexVal h4 with
        | some v1, some v2, some v3, some v4 =>
          let code := ((v1 * 16 + v2) * 16 + v3) * 16 + v4
          match rest with
          | '\\' :: 'u' :: g1 :: g2 :: g3 :: g4 :: rest2 =>
            match hexVal g1, hexVal g2, hexVal g3, hexVal g4 with
            | some w1, some w2, some w3, some w4 =>
              let code2 := ((w1 * 16 + w2) * 16 + w3) * 16 + w4
              if 0xD800 ≤ code ∧ code ≤ 0xDBFF ∧ 0xDC00 ≤ code2 ∧ code2 ≤ 0xDFFF then
                let combined := 0x10000 + (code - 0xD800) * 0x400 + (code2 - 0xDC00)
                (parseStringBody f rest2).map (fun pr => (Char.ofNat combined :: pr.1, pr.2))
              else
                (parseStringBody f rest).map (fun pr => (charOfUnit code :: pr.1, pr.2))
            | _, _, _, _ =>
              (parseStringBody f rest).map (fun pr => (charOfUnit code :: pr.1, pr.2))
          | _ =>
            (parseStringBody f rest).map (fun pr => (charOfUnit code :: pr.1, pr.2))
        | _, _, _, _ => none
      | _ => none
    | c :: rest =>
      if c.toNat < 0x20 then none
      else (parseStringBody f rest).map (fun pr => (c :: pr.1, pr.2))

/-- Optional fraction part of a number, as the regex group `(\.\d+)?`:
a dot with no following digit leaves the input unconsumed. -/
def parseFracPart (cs : List Char) : List Char × List Char :=
  match cs with
  | '.' :: r =>
    match List.span Char.isDigit r with
    | ([], _) => ([], cs)
    | (ds, r2) => ('.' :: ds, r2)
  | _ => ([], cs)

/-- Optional exponent part of a number, as the regex group
`([eE][-+]?\d+)?`. -/
def parseExpPart (cs : List Char) : List Char × List Char :=
  match cs with
  | e :: rest =>
    if e = 'e' ∨ e = 'E' then
      match rest with
      | s :: r2 =>
        if s = '+' ∨ s = '-' then
          match List.span Char.isDigit r2 with
          | ([], _) => ([], cs)
          | (ds, r3) => (e :: s :: ds, r3)
        else
          match List.span Char.isDigit rest with
          | ([], _) => ([], cs)
          | (ds, r3) => (e :: ds, r3)
      | [] => ([], cs)
    else ([], cs)
  | [] => ([], cs)

/-- Number lexeme, as Python json `NUMBER_RE`:
`(-?(?:0|[1-9]\d*))(\.\d+)?([eE][-+]?\d+)?`. -/
def parseNumber (cs : List Char) : Option (List Char × List Char) :=
  let (sign, cs1) :=
    match cs with
    | '-' :: r => (['-'], r)
    | _ => (([] : List Char), cs)
  match cs1 with
  | '0' :: r =>
    let (fr, r2) := parseFracPart r
    let (ex, r3) := parseExpPart r2
    some (sign ++ '0' :: (fr ++ ex), r3)
  | c :: r =>
    if c.isDigit ∧ c ≠ '0' then
      let (ds, r1) := List.span Char.isDigit r
      let (fr, r2) := parseFracPart r1
      let (ex, r3) := parseExpPart r2
      some (sign ++ c :: (ds ++ fr ++ ex), r3)
    else none
  | [] => none

mutual

/-- One JSON value starting at the given position (whitespace already
skipped), as dispatched by the Python json scanner: string, object, array,
the literals, then a number, then the non-standard `NaN` / `Infinity` /
`-Infinity` accepted by default. -/
def parseValue : Nat → List Char → Option (JsonValue × List Char)
  | 0, _ => none
  | f + 1, cs =>
    match cs with
    | '\"' :: rest =>
      (parseStringBody (rest.length + 1) rest).map
        (fun pr => (JsonValue.str (String.mk pr.1), pr.2))
    | '\x7b' :: rest =>
      match skipWs rest with
      | '\x7d' :: r2 => some (JsonValue.obj [], r2)
      | cs2 => parseMembers f cs2 []
    | '[' :: rest =>
      match skipWs rest with
      | ']' :: r2 => some (JsonValue.arr [], r2)
      | cs2 => parseItems f cs2 []
    | 'n' :: 'u' :: 'l' :: 'l' :: rest => some (JsonValue.null, rest)
    | 't' :: 'r' :: 'u' :: 'e' :: rest => some (JsonValue.bool true, rest)
    | 'f' :: 'a' :: 'l' :: 's' :: 'e' :: rest => some (JsonValue.bool false, rest)
    | 'N' :: 'a' :: 'N' :: rest => some (JsonValue.num "NaN", rest)
    | 'I' :: 'n' :: 'f' :: 'i' :: 'n' :: 'i' :: 't' :: 'y' :: rest =>
      some (JsonValue.num "Infinity", rest)
    | '-' :: 'I' :: 'n' :: 'f' :: 'i' :: 'n' :: 'i' :: 't' :: 'y' :: rest =>
      some (JsonValue.num "-Infinity", rest)
    | _ =>
      (parseNumber cs).map (fun pr => (JsonValue.num (String.mk pr.1), pr.2))

/-- Members of a JSON object after the opening brace (non-empty case), as
Python `JSONObject`: key string, colon, value, then comma or closing
brace. -/
def parseMembers : Nat → List Char → List (String × JsonValue) →
    Option (JsonValue × List Char)
  | 0, _, _ => none
  | f + 1, cs, acc =>
    match cs with
    | '\"' :: rest =>
      match parseStringBody (rest.length + 1) rest with
      | none => none
      | some (k, r1) =>
        match skipWs r1 with
        | ':' :: r2 =>
          match parseValue f (skipWs r2) with
          | none => none
          | some (v, r3) =>
            let acc2 := objInsert acc (String.mk k) v
            match skipWs r3 with
            | ',' :: r4 => parseMembers f (skipWs r4) acc2
            | '\x7d' :: r4 => some (JsonValue.obj acc2, r4)
            | _ => none
        | _ => none
    | _ => none

/-- Items of a JSON array after the opening bracket (non-empty case), as
Python `JSONArray`: value, then comma or closing bracket. -/
def parseItems : Nat → List Char → List JsonValue →
    Option (JsonValue × List Char)
  | 0, _, _ => none
  | f + 1, cs, acc =>
    match parseValue f cs with
    | none => none
    | some (v, r1) =>
      let acc2 := acc ++ [v]
      match skipWs r1 with
      | ']' :: r2 => some (JsonValue.arr acc2, r2)
      | ',' :: r2 => parseItems f (skipWs r2) acc2
      | _ => none

end

/-- Embedding of Python `json.loads` on a character list: skip leading
whitespace, parse one value, skip trailing whitespace, and reject any
remaining input (the `Extra data` error).  The fuel bound `2·length + 8`
exceeds the two fuel units any single consumed character can cost. -/
def json_loadsL (cs : List Char) : Option JsonValue :=
  match parseValue (2 * cs.length + 8) (skipWs cs) with
  | some (v, rest) => if skipWs rest = [] then some v else none
  | none => none

/-- Embedding of Python `json.loads` on a string. -/
def json_loads (s : String) : Option JsonValue :=
  json_loadsL s.data

/-- Error kinds of `read_json`: the re-raised `FileNotFoundError` and the
re-raised `json.JSONDecodeError`, each carrying the message built by the
source (the decode error's `line/column` suffix is omitted; it carries no
path information). -/
inductive ReadJsonError where
  | fileNotFound (msg : String) : ReadJsonError
  | malformedJson (msg : String) : ReadJsonError

/-- Message carried by a `read_json` error. -/
def ReadJsonError.msg : ReadJsonError → String
  | ReadJsonError.fileNotFound m => m
  | ReadJsonError.malformedJson m => m

/-- Embedding of the notebook's `read_json`: the file system is a partial
map from paths to contents; a missing path is the re-raised
`FileNotFoundError`, unparsable contents the re-raised
`json.JSONDecodeError`, both with the path interpolated into the message. -/
def read_json (fs : String → Option String) (path : String) :
    Except ReadJsonError JsonValue :=
  match fs path with
  | none => Except.error (ReadJsonError.fileNotFound ("File not found: " ++ path))
  | some contents =>
    match json_loads contents with
    | some doc => Except.ok doc
    | none =>
      Except.error (ReadJsonError.malformedJson ("Invalid JSON format in file: " ++ path))

/-- Outcome of the notebook's response-extraction cell.  `noCandidates` is
the `else` print; `decodeFailed` carries the string shown by the
`json.JSONDecodeError` handler; `parsed` carries the parsed document and
the four `.get` results; `attrFailed` is the uncaught `AttributeError`
raised when `.get` is called on a non-`dict` parse result. -/
inductive CellResult where
  | noCandidates : CellResult
  | decodeFailed (shown : String) : CellResult
  | parsed (response_json : JsonValue)
      (original_label correct reasoning correct_label : Option JsonValue) : CellResult
  | attrFailed (response_json : JsonValue) : CellResult

/-- Embedding of the extraction cell: on a non-empty candidate list take
the first candidate's text, strip the fence patterns, `strip()` whitespace,
`json.loads` it, and on success extract the four fields with `.get`; a
decode failure prints the stripped string; an empty candidate list prints
the distinct no-candidates message. -/
def extract_cell (candidates : List String) : CellResult :=
  match candidates with
  | [] => CellResult.noCandidates
  | raw_text :: _ =>
    let json_string : String := String.mk (pyStripL (substFence raw_text.data))
    match json_loads json_string with
    | none => CellResult.decodeFailed json_string
    | some (JsonValue.obj kvs) =>
      CellResult.parsed (JsonValue.obj kvs)
        (dictGet kvs "original_label") (dictGet kvs "correct")
        (dictGet kvs "reasoning") (dictGet kvs "correct_label")
    | some v => CellResult.attrFailed v

/-- Embedding of PIL's `round_aspect` helper inside `Image.thumbnail`:
`max(min(math.floor(number), math.ceil(number), key=key), 1)`; Python
`min` with a key returns the first argument on ties.  Rationals stand in
for the interpreter's floats. -/
def round_aspect (number : ℚ) (key : ℤ → ℚ) : ℤ :=
  max (if key ⌊number⌋ ≤ key ⌈number⌉ then ⌊number⌋ else ⌈number⌉) 1

/-- Embedding of the size computed by `cropped_image.thumbnail([256, 256])`
(PIL `Image.thumbnail`): if the crop already fits in 256×256 the image is
left untouched, otherwise the aspect ratio `width / height` decides which
side is pinned to 256 while the other is rounded from the exact
aspect-preserving value. -/
def thumbnailSize (w h : ℕ) : ℤ × ℤ :=
  if 256 ≥ w ∧ 256 ≥ h then ((w : ℤ), (h : ℤ))
  else
    let aspect : ℚ := (w : ℚ) / (h : ℚ)
    if (256 : ℚ) / 256 ≥ aspect then
      (round_aspect (256 * aspect) (fun n => |aspect - (n : ℚ) / 256|), 256)
    else
      (256, round_aspect (256 / aspect)
        (fun n => if n = 0 then 0 else |aspect - 256 / (n : ℚ)|))

/-- C1.  Evaluation of `read_csv` at the file from the claim (header row
`label`, data rows `plastic` and `metal`, as produced by `csv.reader`):
the code returns the header as the first element, although its own
docstring promises that the header row is skipped. -/
theorem c1_read_csv_keeps_header :
    read_csv [["label"], ["plastic"], ["metal"]] = ["label", "plastic", "metal"]
    ∧ read_csv [["label"], ["plastic"], ["metal"]] ≠ ["plastic", "metal"] := by
  exact ⟨rfl, by decide⟩

/-- C2.  For every 4-element numeric bounding box `(x, y, w, h)` with
`w, h ≥ 0`, `convert_bbox_coco_to_xyxy` returns exactly `[x, y, x+w, y+h]`,
so the result satisfies `x2 = x1 + w` and `y2 = y1 + h`. -/
theorem c2_convert_bbox (x y w h : ℚ) (hw : 0 ≤ w) (hh : 0 ≤ h) :
    convert_bbox_coco_to_xyxy [x, y, w, h] = [x, y, x + w, y + h]
    ∧ (convert_bbox_coco_to_xyxy [x, y, w, h]).getD 2 0
        = (convert_bbox_coco_to_xyxy [x, y, w, h]).getD 0 0 + w
    ∧ (convert_bbox_coco_to_xyxy [x, y, w, h]).getD 3 0
        = (convert_bbox_coco_to_xyxy [x, y, w, h]).getD 1 0 + h := by
  refine ⟨rfl, ?_, ?_⟩ <;> simp [convert_bbox_coco_to_xyxy]

/-- Witness for C2 at the spec's end-to-end example box `[10, 10, 50, 50]`. -/
theorem c2_convert_bbox_witness :
    (0 : ℚ) ≤ 50
    ∧ convert_bbox_coco_to_xyxy [10, 10, 50, 50] = [10, 10, 10 + 50, 10 + 50] :=
  ⟨by norm_num, (c2_convert_bbox 10 10 50 50 (by norm_num) (by norm_num)).1⟩

/-- C7.  With zero candidate responses, the extraction cell reports the
distinct no-candidates condition and attempts no extraction; extraction is
attempted only on a non-empty candidate list. -/
theorem c7_no_candidates :
    extract_cell [] = CellResult.noCandidates
    ∧ ∀ (c : String) (cs : List String),
        extract_cell (c :: cs) ≠ CellResult.noCandidates := by
  refine ⟨rfl, ?_⟩
  intro c cs hcontra
  simp only [extract_cell] at hcontra
  split at hcontra <;> simp_all

/-- C3.  On the spec's fenced response the cell strips the fence, parses
the JSON object, and extracts exactly the four field values; a fenced
object missing any of the four fields yields `none` for it (Python
`dict.get` returning `None`), and in general `dictGet` is `none` on every
absent key, never an error. -/
theorem c3_response_fields :
    extract_cell
        ["\x60\x60\x60json\n\x7b\"original_label\":\"metal\",\"correct\":false,\"reasoning\":\"x\",\"correct_label\":\"plastic\"\x7d\n\x60\x60\x60"]
      = CellResult.parsed
          (JsonValue.obj
            [("original_label", JsonValue.str "metal"),
             ("correct", JsonValue.bool false),
             ("reasoning", JsonValue.str "x"),
             ("correct_label", JsonValue.str "plastic")])
          (some (JsonValue.str "metal")) (some (JsonValue.bool false))
          (some (JsonValue.str "x")) (some (JsonValue.str "plastic"))
    ∧ extract_cell ["\x60\x60\x60json\n\x7b\"correct\":true\x7d\n\x60\x60\x60"]
      = CellResult.parsed (JsonValue.obj [("correct", JsonValue.bool true)])
          none (some (JsonValue.bool true)) none none
    ∧ ∀ (kvs : List (String × JsonValue)) (k : String),
        (∀ p ∈ kvs, p.1 ≠ k) → dictGet kvs k = none := by
  refine ⟨rfl, rfl, ?_⟩
  intro kvs k habs
  simp only [dictGet]
  have hfind : kvs.find? (fun p => p.1 == k) = none := by
    rw [List.find?_eq_none]
    intro p hp
    simpa using habs p hp
  rw [hfind]

/-- Witness for C3's general missing-key conjunct at a concrete object
lacking the `original_label` field. -/
theorem c3_response_fields_witness :
    (∀ p ∈ [("correct", JsonValue.bool true)], p.1 ≠ "original_label")
    ∧ dictGet [("correct", JsonValue.bool true)] "original_label" = none :=
  ⟨by decide, c3_response_fields.2.2 [("correct", JsonValue.bool true)]
    "original_label" (by decide)⟩

/-- C6 counterexample.  The claim says the parse-failure branch preserves
the raw response text for display, but the cell displays `json_string`,
the fence-stripped and whitespace-trimmed text: on the raw text
`x` newline three-backticks, the displayed string is `x`, not the raw
text. -/
theorem c6_raw_text_cex :
    extract_cell ["x\n\x60\x60\x60"] = CellResult.decodeFailed "x"
    ∧ "x" ≠ "x\n\x60\x60\x60" :=
  ⟨rfl, by decide⟩

/-- C6 amended.  For every candidate text that is not valid JSON after
fence-stripping and trimming, the cell fails locally: it returns the
decode-failure report carrying the fence-stripped, trimmed text for
display, and no uncaught error interrupts the batch (the cell is a total
function into `CellResult`). -/
theorem c6_decode_failure (raw : String) (rest : List String)
    (hbad : json_loads (String.mk (pyStripL (substFence raw.data))) = none) :
    extract_cell (raw :: rest)
      = CellResult.decodeFailed (String.mk (pyStripL (substFence raw.data))) := by
  simp only [extract_cell, hbad]

/-- Witness for C6 amended at the raw text `x` newline three-backticks. -/
theorem c6_decode_failure_witness :
    json_loads (String.mk (pyStripL (substFence ("x\n\x60\x60\x60").data))) = none
    ∧ extract_cell ["x\n\x60\x60\x60"]
      = CellResult.decodeFailed
          (String.mk (pyStripL (substFence ("x\n\x60\x60\x60").data))) :=
  ⟨rfl, c6_decode_failure "x\n\x60\x60\x60" [] rfl⟩

/-- C4.  For every file system and path, `read_json` either returns the
fully parsed document or fails with one of the two distinguishable error
kinds: `fileNotFound` exactly when the path is absent, `malformedJson`
exactly when the contents do not parse; both error messages contain the
offending path, and a success requires `json_loads` to accept the whole
contents (no partial parse). -/
theorem c4_read_json_errors (fs : String → Option String) (path : String) :
    (fs path = none →
      read_json fs path
        = Except.error (ReadJsonError.fileNotFound ("File not found: " ++ path)))
    ∧ (∀ c, fs path = some c → json_loads c = none →
      read_json fs path
        = Except.error
            (ReadJsonError.malformedJson ("Invalid JSON format in file: " ++ path)))
    ∧ (∀ c d, fs path = some c → json_loads c = some d →
      read_json fs path = Except.ok d)
    ∧ (∀ e, read_json fs path = Except.error e →
      ∃ a b, e.msg = a ++ path ++ b) := by
  refine ⟨?_, ?_, ?_, ?_⟩
  · intro hnone; simp [read_json, hnone]
  · intro c hc hbad; simp [read_json, hc, hbad]
  · intro c d hc hd; simp [read_json, hc, hd]
  · intro e he
    simp only [read_json] at he
    rcases hfs : fs path with _ | c
    · rw [hfs] at he
      dsimp only at he
      refine ⟨"File not found: ", "", ?_⟩
      cases he
      simp [ReadJsonError.msg]
    · rw [hfs] at he
      dsimp only at he
      rcases hjs : json_loads c with _ | d
      · rw [hjs] at he
        dsimp only at he
        refine ⟨"Invalid JSON format in file: ", "", ?_⟩
        cases he
        simp [ReadJsonError.msg]
      · rw [hjs] at he
        dsimp only at he
        cases he

/-- Witness for C4 at a missing path and at the spec's malformed contents
(an opening brace followed by `invalid`). -/
theorem c4_read_json_errors_witness :
    ((fun _ => (none : Option String)) "missing.json" = none
      ∧ read_json (fun _ => none) "missing.json"
        = Except.error
            (ReadJsonError.fileNotFound ("File not found: " ++ "missing.json")))
    ∧ ((fun _ => some "\x7binvalid") "bad.json" = some "\x7binvalid"
      ∧ json_loads "\x7binvalid" = none
      ∧ read_json (fun _ => some "\x7binvalid") "bad.json"
        = Except.error
            (ReadJsonError.malformedJson
              ("Invalid JSON format in file: " ++ "bad.json"))) :=
  ⟨⟨rfl, (c4_read_json_errors (fun _ => none) "missing.json").1 rfl⟩,
   ⟨rfl, rfl,
    (c4_read_json_errors (fun _ => some "\x7binvalid") "bad.json").2.1
      "\x7binvalid" rfl rfl⟩⟩

/-- Lookup in the 1-based enumeration underlying `labels_mapping`,
characterised for an arbitrary starting index. -/
theorem lookup_enumFrom (labels : List String) :
    ∀ n i : Nat,
      List.lookup i (List.enumFrom n labels)
        = if n ≤ i then labels.get? (i - n) else none := by
  induction labels with
  | nil =>
    intro n i
    simp [List.enumFrom]
  | cons a as ih =>
    intro n i
    simp only [List.enumFrom, List.lookup]
    by_cases hin : i = n
    · subst hin
      simp
    · have hbeq : (i == n) = false := by simp [hin]
      rw [hbeq]
      simp only [ih (n + 1) i]
      rcases Nat.lt_or_ge i n with hlt | hge
      · rw [if_neg (by omega), if_neg (by omega)]
      · have h1 : n + 1 ≤ i := by omega
        rw [if_pos h1, if_pos (by omega)]
        have h2 : i - n = (i - (n + 1)) + 1 := by omega
        rw [h2]
        rfl

/-- C5.  The label mapping built from `["a", "b", "c"]` is 1-indexed,
mapping `1`, `2`, `3` to the three labels in order; and looking up any
category id outside the mapping (such as `4`, or in general `0` or any id
beyond the list length) yields the `KeyError` case `none`, never a silent
default. -/
theorem c5_labels_mapping :
    (mappingLookup ["a", "b", "c"] 1 = some "a"
      ∧ mappingLookup ["a", "b", "c"] 2 = some "b"
      ∧ mappingLookup ["a", "b", "c"] 3 = some "c"
      ∧ mappingLookup ["a", "b", "c"] 4 = none)
    ∧ ∀ (labels : List String) (i : Nat),
        i = 0 ∨ labels.length < i → mappingLookup labels i = none := by
  refine ⟨⟨rfl, rfl, rfl, rfl⟩, ?_⟩
  intro labels i hout
  simp only [mappingLookup, labels_mapping, lookup_enumFrom]
  rcases hout with h0 | hbig
  · subst h0
    simp
  · rw [if_pos (by omega)]
    exact List.get?_eq_none.mpr (by omega)

/-- Witness for C5's out-of-range conjunct at the singleton label table and
category id 5. -/
theorem c5_labels_mapping_witness :
    ((5 : Nat) = 0 ∨ ["a"].length < 5) ∧ mappingLookup ["a"] 5 = none :=
  ⟨by decide, c5_labels_mapping.2 ["a"] 5 (by decide)⟩

/-- Fuel irrelevance for the fence-substitution pass: any fuel at least the
input length computes the same result as the canonical fuel. -/
theorem substFenceAux_fuel :
    ∀ (f : Nat) (cs : List Char), cs.length ≤ f →
      substFenceAux f cs = substFence cs := by
  intro f
  induction f using Nat.strong_induction_on with
  | _ f ih =>
    intro cs hlen
    match f, cs with
    | 0, cs =>
      have hnil : cs = [] := List.length_eq_zero.mp (Nat.le_zero.mp hlen)
      subst hnil
      rfl
    | f + 1, [] =>
      rfl
    | f + 1, c :: rest =>
      have hr : rest.length ≤ f := by
        simpa [Nat.succ_le_succ_iff] using hlen
      show substFenceAux (f + 1) (c :: rest)
          = substFenceAux (rest.length + 1) (c :: rest)
      simp only [substFenceAux]
      by_cases h1 : fenceOpen.isPrefixOf (c :: rest)
      · rw [if_pos h1, if_pos h1]
        have hd : ((c :: rest).drop 8).length ≤ rest.length := by
          simp
        rw [ih f (by omega) _ (le_trans hd hr),
          ih rest.length (by omega) _ hd]
      · rw [if_neg h1, if_neg h1]
        by_cases h2 : fenceClose.isPrefixOf (c :: rest)
        · rw [if_pos h2, if_pos h2]
          have hd : ((c :: rest).drop 4).length ≤ rest.length := by
            simp
          rw [ih f (by omega) _ (le_trans hd hr),
            ih rest.length (by omega) _ hd]
        · rw [if_neg h2, if_neg h2]
          rw [ih f (by omega) rest hr, ih rest.length (by omega) rest le_rfl]

/-- Substitution step at an occurrence of the opening fence pattern: the
whole pattern is consumed and scanning continues after it. -/
theorem substFence_open (t : List Char) :
    substFence (fenceOpen ++ t) = substFence t := by
  show substFenceAux (fenceOpen ++ t).length (fenceOpen ++ t) = _
  have hlen : (fenceOpen ++ t).length = (t.length + 7) + 1 := by
    simp [fenceOpen]
  rw [hlen]
  simp only [substFenceAux]
  rw [if_pos (by
    exact List.isPrefixOf_iff_prefix.mpr (List.prefix_append fenceOpen t))]
  have hdrop : (fenceOpen ++ t).drop 8 = t := by
    have : fenceOpen.length = 8 := rfl
    rw [← this, List.drop_left]
  rw [hdrop]
  exact substFenceAux_fuel (t.length + 7) t (by omega)

/-- Substitution step at an occurrence of the closing fence pattern. -/
theorem substFence_close (t : List Char) :
    substFence (fenceClose ++ t) = substFence t := by
  show substFenceAux (fenceClose ++ t).length (fenceClose ++ t) = _
  have hlen : (fenceClose ++ t).length = (t.length + 3) + 1 := by
    simp [fenceClose]
  rw [hlen]
  simp only [substFenceAux]
  rw [if_neg (by
    intro hcontra
    have hpre := List.isPrefixOf_iff_prefix.mp hcontra
    rcases hpre with ⟨u, hu⟩
    simp [fenceOpen, fenceClose, List.append_eq_cons] at hu
    rcases hu with ⟨-, h2⟩
    exact absurd h2.1 (by decide))]
  rw [if_pos (by
    exact List.isPrefixOf_iff_prefix.mpr (List.prefix_append fenceClose t))]
  have hdrop : (fenceClose ++ t).drop 4 = t := by
    have : fenceClose.length = 4 := rfl
    rw [← this, List.drop_left]
  rw [hdrop]
  exact substFenceAux_fuel (t.length + 3) t (by omega)

/-- Substitution step at a character that can start neither fence pattern:
the character is emitted unchanged and scanning moves one position ahead. -/
theorem substFence_cons (c : Char) (rest : List Char)
    (hb : c ≠ btick) (hn : c ≠ '\n') :
    substFence (c :: rest) = c :: substFence rest := by
  show substFenceAux (rest.length + 1) (c :: rest) = _
  simp only [substFenceAux]
  rw [if_neg (by
    intro hcontra
    have hpre := List.isPrefixOf_iff_prefix.mp hcontra
    rcases hpre with ⟨u, hu⟩
    simp [fenceOpen, List.append_eq_cons] at hu
    exact absurd hu.1.symm hb)]
  rw [if_neg (by
    intro hcontra
    have hpre := List.isPrefixOf_iff_prefix.mp hcontra
    rcases hpre with ⟨u, hu⟩
    simp [fenceClose, List.append_eq_cons] at hu
    exact absurd hu.1.symm hn)]
  rfl

/-- C10.  The fence stripping substitutes every occurrence of the two
literal patterns anywhere in the response text, not only a leading prefix
and a trailing suffix: whatever text made of ordinary characters (no
backtick, no newline) comes before an occurrence, the occurrence is
deleted and scanning continues in the remainder, so occurrences inside
JSON string values are deleted before `json.loads` runs. -/
theorem c10_global_fence_subst (s t : List Char)
    (hs : ∀ c ∈ s, c ≠ btick ∧ c ≠ '\n') :
    substFence (s ++ (fenceOpen ++ t)) = s ++ substFence t
    ∧ substFence (s ++ (fenceClose ++ t)) = s ++ substFence t := by
  induction s with
  | nil =>
    simpa using ⟨substFence_open t, substFence_close t⟩
  | cons c s' ih =>
    have hc := hs c (List.mem_cons_self c s')
    obtain ⟨ih1, ih2⟩ := ih (fun c' h' => hs c' (List.mem_cons_of_mem c h'))
    constructor
    · rw [List.cons_append, substFence_cons c _ hc.1 hc.2, ih1, List.cons_append]
    · rw [List.cons_append, substFence_cons c _ hc.1 hc.2, ih2, List.cons_append]

/-- Witness for C10: an opening-fence occurrence in the middle of ordinary
text is deleted with the surrounding text preserved. -/
theorem c10_global_fence_subst_witness :
    (∀ c ∈ ("see ").data, c ≠ btick ∧ c ≠ '\n')
    ∧ substFence (("see ").data ++ (fenceOpen ++ (" rest").data))
      = ("see ").data ++ substFence (" rest").data :=
  ⟨by decide, (c10_global_fence_subst ("see ").data (" rest").data (by decide)).1⟩

/-- Monotonicity of the slice-bound normalisation in the bound. -/
theorem pySliceNorm_mono (n : Nat) (a b : Int) (h0 : 0 ≤ a) (hab : a ≤ b) :
    pySliceNorm n a ≤ pySliceNorm n b := by
  simp only [pySliceNorm]
  rw [if_neg (by omega), if_neg (by omega)]
  omega

/-- Upper bound of the normalised slice bound. -/
theorem pySliceNorm_le (n : Nat) (i : Int) : pySliceNorm n i ≤ n := by
  simp only [pySliceNorm]
  split <;> omega

/-- A Python slice never exceeds the length of the list it slices. -/
theorem pySlice_length_le (l : List α) (a b : Int) :
    (pySlice l a b).length ≤ l.length := by
  simp only [pySlice, List.length_drop, List.length_take]
  omega

/-- A Python slice with in-range inverted bounds is empty. -/
theorem pySlice_inverted (l : List α) (a b : Int) (h0 : 0 ≤ b) (hba : b ≤ a) :
    pySlice l a b = [] := by
  simp only [pySlice]
  apply List.drop_eq_nil_of_le
  rw [List.length_take]
  have := pySliceNorm_mono l.length b a h0 hba
  have := pySliceNorm_le l.length b
  omega

/-- Members of a Python slice are members of the sliced list. -/
theorem mem_of_mem_pySlice {l : List α} {a b : Int} {x : α}
    (hx : x ∈ pySlice l a b) : x ∈ l := by
  simp only [pySlice] at hx
  exact List.mem_of_mem_take (List.mem_of_mem_drop hx)

/-- C9.  Slicing the image with the converted corner-corner box is total
for every box: the crop never has more rows than the image, every crop row
is the corresponding slice of an image row and no longer than it, and
out-of-range or inverted coordinates produce an empty (or empty-rowed)
crop instead of an error. -/
theorem c9_crop_total (img : List (List α)) (y1 y2 x1 x2 : Int) :
    (slice2d img y1 y2 x1 x2).length ≤ img.length
    ∧ (∀ r ∈ slice2d img y1 y2 x1 x2,
        ∃ row ∈ img, r = pySlice row x1 x2 ∧ r.length ≤ row.length)
    ∧ (0 ≤ y2 → y2 ≤ y1 → slice2d img y1 y2 x1 x2 = [])
    ∧ (0 ≤ x2 → x2 ≤ x1 → ∀ r ∈ slice2d img y1 y2 x1 x2, r = []) := by
  refine ⟨?_, ?_, ?_, ?_⟩
  · simp only [slice2d, List.length_map]
    exact pySlice_length_le img y1 y2
  · intro r hr
    simp only [slice2d, List.mem_map] at hr
    obtain ⟨row, hrow, hre⟩ := hr
    exact ⟨row, mem_of_mem_pySlice hrow, hre.symm,
      hre ▸ pySlice_length_le row x1 x2⟩
  · intro h0 hinv
    simp only [slice2d, pySlice_inverted img y1 y2 h0 hinv, List.map_nil]
  · intro h0 hinv r hr
    simp only [slice2d, List.mem_map] at hr
    obtain ⟨row, _, hre⟩ := hr
    rw [← hre]
    exact pySlice_inverted row x1 x2 h0 hinv

/-- Witness for C9 on a 2×2 image with an inverted row range and an
out-of-range column range. -/
theorem c9_crop_total_witness :
    ((0 : Int) ≤ 3 ∧ (3 : Int) ≤ 5
      ∧ slice2d [[1, 2], [3, 4]] 5 3 0 2 = ([] : List (List Nat)))
    ∧ (slice2d [[1, 2], [3, 4]] 0 10 0 10).length ≤ 2 :=
  ⟨⟨by decide, by decide,
    (c9_crop_total [[1, 2], [3, 4]] 5 3 0 2).2.2.1 (by decide) (by decide)⟩,
   (c9_crop_total [[1, 2], [3, 4]] 0 10 0 10).1⟩

/-- Unfolding of `thumbnailSize` in the portrait-or-square branch
(aspect at most one). -/
theorem thumbnailSize_eq_A (w h : ℕ) (hfit : ¬ (256 ≥ w ∧ 256 ≥ h))
    (hba : (256 : ℚ) / 256 ≥ (w : ℚ) / (h : ℚ)) :
    thumbnailSize w h
      = (round_aspect (256 * ((w : ℚ) / (h : ℚ)))
          (fun n => |(w : ℚ) / (h : ℚ) - (n : ℚ) / 256|), 256) := by
  simp only [thumbnailSize]
  rw [if_neg hfit, if_pos hba]

/-- Unfolding of `thumbnailSize` in the landscape branch (aspect above
one). -/
theorem thumbnailSize_eq_B (w h : ℕ) (hfit : ¬ (256 ≥ w ∧ 256 ≥ h))
    (hba : ¬ ((256 : ℚ) / 256 ≥ (w : ℚ) / (h : ℚ))) :
    thumbnailSize w h
      = (256, round_aspect (256 / ((w : ℚ) / (h : ℚ)))
          (fun n => if n = 0 then 0 else |(w : ℚ) / (h : ℚ) - 256 / (n : ℚ)|)) := by
  simp only [thumbnailSize]
  rw [if_neg hfit, if_neg hba]

/-- The rounded aspect-preserving dimension never exceeds an integer bound
that is at least one and at least the exact value. -/
theorem round_aspect_le (q : ℚ) (key : ℤ → ℚ) (B : ℤ)
    (hq : q ≤ (B : ℚ)) (hB : 1 ≤ B) : round_aspect q key ≤ B := by
  simp only [round_aspect]
  have hc : ⌈q⌉ ≤ B := Int.ceil_le.mpr hq
  have hf : ⌊q⌋ ≤ B := le_trans (Int.floor_le_ceil q) hc
  rcases le_or_lt (key ⌊q⌋) (key ⌈q⌉) with hk | hk
  · rw [if_pos hk]
    exact max_le hf hB
  · rw [if_neg (not_le.mpr hk)]
    exact max_le hc hB

/-- The rounded aspect-preserving dimension is at least one. -/
theorem one_le_round_aspect (q : ℚ) (key : ℤ → ℚ) :
    1 ≤ round_aspect q key :=
  le_max_right _ _

/-- The rounded aspect-preserving dimension is within one of the exact
value, whichever candidate the key comparison selects. -/
theorem round_aspect_close (q : ℚ) (key : ℤ → ℚ) (hq : 0 < q) :
    |((round_aspect q key : ℤ) : ℚ) - q| ≤ 1 := by
  have hfl := Int.floor_le q
  have hfl2 := Int.lt_floor_add_one q
  have hcl := Int.le_ceil q
  have hcl2 := Int.ceil_lt_add_one q
  simp only [round_aspect]
  rcases le_or_lt (key ⌊q⌋) (key ⌈q⌉) with hk | hk
  · rw [if_pos hk]
    rcases le_or_lt 1 ⌊q⌋ with h1 | h1
    · rw [max_eq_left h1, abs_le]
      constructor <;> linarith
    · rw [max_eq_right (by omega)]
      have hfq : ((⌊q⌋ : ℤ) : ℚ) ≤ 0 := by
        exact_mod_cast (by omega : ⌊q⌋ ≤ 0)
      rw [abs_le]
      push_cast
      constructor <;> linarith
  · rw [if_neg (not_le.mpr hk)]
    have h1 : 1 ≤ ⌈q⌉ := by
      by_contra hcon
      push_neg at hcon
      have : ((⌈q⌉ : ℤ) : ℚ) ≤ 0 := by
        exact_mod_cast (by omega : ⌈q⌉ ≤ 0)
      linarith
    rw [max_eq_left h1, abs_le]
    constructor <;> linarith

/-- C8 counterexample.  A 300×200 crop is resized to 256×171, whose aspect
ratio differs from the crop's: exact preservation of the aspect ratio
fails under the pixel rounding performed by `thumbnail`. -/
theorem c8_aspect_cex :
    thumbnailSize 300 200 = (256, 171)
    ∧ ¬ ((256 : ℚ) / 171 = 300 / 200) := by
  constructor
  · rw [thumbnailSize_eq_B 300 200 (by norm_num) (by push_cast; norm_num)]
    have hq : (256 : ℚ) / (((300 : ℕ) : ℚ) / ((200 : ℕ) : ℚ)) = 512 / 3 := by
      push_cast
      norm_num
    have hfl : ⌊(256 : ℚ) / (((300 : ℕ) : ℚ) / ((200 : ℕ) : ℚ))⌋ = 170 := by
      rw [hq, Int.floor_eq_iff] <;> norm_num
    have hcl : ⌈(256 : ℚ) / (((300 : ℕ) : ℚ) / ((200 : ℕ) : ℚ))⌉ = 171 := by
      rw [hq, Int.ceil_eq_iff] <;> norm_num
    simp only [round_aspect, hfl, hcl]
    rw [if_neg (by
      rw [if_neg (by norm_num), if_neg (by norm_num)]
      have h170 : ((300 : ℕ) : ℚ) / ((200 : ℕ) : ℚ) - 256 / ((170 : ℤ) : ℚ)
          = -(1 / 170) := by
        push_cast
        norm_num
      have h171 : ((300 : ℕ) : ℚ) / ((200 : ℕ) : ℚ) - 256 / ((171 : ℤ) : ℚ)
          = 1 / 342 := by
        push_cast
        norm_num
      rw [h170, h171, abs_neg, abs_of_nonneg (by norm_num : (0:ℚ) ≤ 1 / 170),
        abs_of_nonneg (by norm_num : (0:ℚ) ≤ 1 / 342)]
      norm_num)]
    norm_num
  · norm_num

/-- C8 amended.  For every non-degenerate crop, the resized crop fits
within 256×256 and is never upscaled beyond the original crop's size
(each dimension stays at most the original, and a crop that already fits
is left unchanged); the aspect ratio is preserved up to integer rounding:
when resizing happens, one side is pinned to 256 and the other lands
within one pixel of the exact aspect-preserving value. -/
theorem c8_thumbnail_bounds (w h : ℕ) (hw : 0 < w) (hh : 0 < h) :
    (thumbnailSize w h).1 ≤ 256 ∧ (thumbnailSize w h).2 ≤ 256
    ∧ (thumbnailSize w h).1 ≤ (w : ℤ) ∧ (thumbnailSize w h).2 ≤ (h : ℤ)
    ∧ 1 ≤ (thumbnailSize w h).1 ∧ 1 ≤ (thumbnailSize w h).2
    ∧ (w ≤ 256 → h ≤ 256 → thumbnailSize w h = ((w : ℤ), (h : ℤ)))
    ∧ (¬ (w ≤ 256 ∧ h ≤ 256) →
        (w ≤ h →
          (thumbnailSize w h).2 = 256
          ∧ |((thumbnailSize w h).1 : ℚ) - 256 * w / h| ≤ 1)
        ∧ (h < w →
          (thumbnailSize w h).1 = 256
          ∧ |((thumbnailSize w h).2 : ℚ) - 256 * h / w| ≤ 1)) := by
  have hw' : (0 : ℚ) < (w : ℚ) := by exact_mod_cast hw
  have hh' : (0 : ℚ) < (h : ℚ) := by exact_mod_cast hh
  by_cases hfit : 256 ≥ w ∧ 256 ≥ h
  · have hval : thumbnailSize w h = ((w : ℤ), (h : ℤ)) := by
      simp only [thumbnailSize]
      rw [if_pos hfit]
    rw [hval]
    obtain ⟨hfw, hfh⟩ := hfit
    exact ⟨by show (w : ℤ) ≤ 256; exact_mod_cast hfw,
      by show (h : ℤ) ≤ 256; exact_mod_cast hfh, le_refl _, le_refl _,
      by show (1 : ℤ) ≤ (w : ℤ); exact_mod_cast hw,
      by show (1 : ℤ) ≤ (h : ℤ); exact_mod_cast hh, fun _ _ => rfl,
      fun hcon => absurd ⟨hfw, hfh⟩ hcon⟩
  · have hfit' : ¬ (w ≤ 256 ∧ h ≤ 256) := fun hcon => hfit ⟨hcon.1, hcon.2⟩
    by_cases hba : (256 : ℚ) / 256 ≥ (w : ℚ) / (h : ℚ)
    · -- aspect at most one: width is the adjusted side, height pinned to 256
      have hasp1 : (w : ℚ) / (h : ℚ) ≤ 1 := by
        have h11 : (256 : ℚ) / 256 = 1 := by norm_num
        rw [h11] at hba
        exact hba
      have hwh : w ≤ h := by
        have : (w : ℚ) ≤ (h : ℚ) := (div_le_one hh').mp hasp1
        exact_mod_cast this
      have hh256 : 256 < h := by
        by_contra hcon
        push_neg at hcon
        exact hfit ⟨by omega, hcon⟩
      have hq : thumbnailSize w h
          = (round_aspect (256 * ((w : ℚ) / (h : ℚ)))
              (fun n => |(w : ℚ) / (h : ℚ) - (n : ℚ) / 256|), 256) :=
        thumbnailSize_eq_A w h hfit hba
      rw [hq]
      have hqpos : (0 : ℚ) < 256 * ((w : ℚ) / (h : ℚ)) := by positivity
      have hq256 : 256 * ((w : ℚ) / (h : ℚ)) ≤ ((256 : ℤ) : ℚ) := by
        push_cast
        nlinarith
      have hqw : 256 * ((w : ℚ) / (h : ℚ)) ≤ ((w : ℤ) : ℚ) := by
        push_cast
        rw [mul_div_assoc'] at *
        rw [div_le_iff hh']
        have h256h : (256 : ℚ) ≤ (h : ℚ) := by exact_mod_cast le_of_lt hh256
        nlinarith
      have hx256 := round_aspect_le _ (fun n => |(w : ℚ) / (h : ℚ) - (n : ℚ) / 256|)
        256 hq256 (by norm_num)
      have hxw := round_aspect_le _ (fun n => |(w : ℚ) / (h : ℚ) - (n : ℚ) / 256|)
        (w : ℤ) hqw (by exact_mod_cast hw)
      have hx1 := one_le_round_aspect (256 * ((w : ℚ) / (h : ℚ)))
        (fun n => |(w : ℚ) / (h : ℚ) - (n : ℚ) / 256|)
      have hxc := round_aspect_close (256 * ((w : ℚ) / (h : ℚ)))
        (fun n => |(w : ℚ) / (h : ℚ) - (n : ℚ) / 256|) hqpos
      have hmd : (256 : ℚ) * ((w : ℚ) / (h : ℚ)) = 256 * (w : ℚ) / (h : ℚ) := by
        ring
      refine ⟨hx256, by norm_num, hxw,
        by show (256 : ℤ) ≤ (h : ℤ); exact_mod_cast le_of_lt hh256,
        hx1, by norm_num, fun hcw hch => absurd ⟨hcw, hch⟩ hfit', ?_⟩
      intro _
      constructor
      · intro _
        exact ⟨rfl, by rw [← hmd]; exact hxc⟩
      · intro hcon
        omega
    · -- aspect above one: height is the adjusted side, width pinned to 256
      have hasp1 : 1 < (w : ℚ) / (h : ℚ) := by
        push_neg at hba
        have h11 : (256 : ℚ) / 256 = 1 := by norm_num
        rw [h11] at hba
        exact hba
      have hwh : h < w := by
        have : (h : ℚ) < (w : ℚ) := by
          have := (one_lt_div hh').mp hasp1
          exact this
        exact_mod_cast this
      have hw256 : 256 < w := by
        by_contra hcon
        push_neg at hcon
        exact hfit ⟨hcon, by omega⟩
      have hq : thumbnailSize w h
          = (256, round_aspect (256 / ((w : ℚ) / (h : ℚ)))
              (fun n => if n = 0 then 0 else |(w : ℚ) / (h : ℚ) - 256 / (n : ℚ)|)) :=
        thumbnailSize_eq_B w h hfit (by push_neg at hba ⊢; exact hba)
      rw [hq]
      have hqeq : (256 : ℚ) / ((w : ℚ) / (h : ℚ)) = 256 * (h : ℚ) / (w : ℚ) := by
        rw [div_div_eq_mul_div]
      have hqpos : (0 : ℚ) < 256 / ((w : ℚ) / (h : ℚ)) := by positivity
      have hhw2 : (h : ℚ) < (w : ℚ) := by exact_mod_cast hwh
      have hq256 : 256 / ((w : ℚ) / (h : ℚ)) ≤ ((256 : ℤ) : ℚ) := by
        rw [hqeq]
        push_cast
        rw [div_le_iff hw']
        nlinarith
      have hqh : 256 / ((w : ℚ) / (h : ℚ)) ≤ ((h : ℤ) : ℚ) := by
        rw [hqeq]
        push_cast
        rw [div_le_iff hw']
        have h256w : (256 : ℚ) ≤ (w : ℚ) := by exact_mod_cast le_of_lt hw256
        nlinarith
      have hy256 := round_aspect_le _
        (fun n => if n = 0 then 0 else |(w : ℚ) / (h : ℚ) - 256 / (n : ℚ)|)
        256 hq256 (by norm_num)
      have hyh := round_aspect_le _
        (fun n => if n = 0 then 0 else |(w : ℚ) / (h : ℚ) - 256 / (n : ℚ)|)
        (h : ℤ) hqh (by exact_mod_cast hh)
      have hy1 := one_le_round_aspect (256 / ((w : ℚ) / (h : ℚ)))
        (fun n => if n = 0 then 0 else |(w : ℚ) / (h : ℚ) - 256 / (n : ℚ)|)
      have hyc := round_aspect_close (256 / ((w : ℚ) / (h : ℚ)))
        (fun n => if n = 0 then 0 else |(w : ℚ) / (h : ℚ) - 256 / (n : ℚ)|) hqpos
      refine ⟨by norm_num, hy256,
        by show (256 : ℤ) ≤ (w : ℤ); exact_mod_cast le_of_lt hw256, hyh,
        by norm_num, hy1, fun hcw hch => absurd ⟨hcw, hch⟩ hfit', ?_⟩
      intro _
      constructor
      · intro hcon
        omega
      · intro _
        exact ⟨rfl, by rw [← hqeq]; exact hyc⟩

/-- Witness for C8 amended at the 300×200 crop. -/
theorem c8_thumbnail_bounds_witness :
    (0 < 300 ∧ 0 < 200)
    ∧ (thumbnailSize 300 200).1 ≤ 256 ∧ (thumbnailSize 300 200).2 ≤ 256
    ∧ (thumbnailSize 300 200).1 ≤ ((300 : ℕ) : ℤ)
    ∧ (thumbnailSize 300 200).2 ≤ ((200 : ℕ) : ℤ) :=
  ⟨⟨by decide, by decide⟩, (c8_thumbnail_bounds 300 200 (by decide) (by decide)).1,
    (c8_thumbnail_bounds 300 200 (by decide) (by decide)).2.1,
    (c8_thumbnail_bounds 300 200 (by decide) (by decide)).2.2.1,
    (c8_thumbnail_bounds 300 200 (by decide) (by decide)).2.2.2.1⟩

end QCG
